import Mathlib

/-!
Verification of the fetch-orchestration and TSV-parsing pipeline of the
Netflix Top-10 collector.

The Lean definitions below are a shallow embedding of the Python sources:

* `src/models.py`           — `RankingEntry`, `CountryRanking`, `ScrapeResult`
* `src/fetchers/orchestrator.py` — `fetch_rankings`
* `src/fetchers/tsv_fetcher.py`  — `_country_slug`, `_parse_int`,
                                   `_parse_countries_tsv`
* `src/validation/validators.py` — `validate_ranking`
* `src/config.py`           — `TRACKED_COUNTRIES`

Python exceptions are modelled with `Except String`, a Python call that can
raise becomes a value of `Except String α`, timestamps (`fetched_at`,
produced by `datetime.now`) become an explicit `Nat` parameter, and the rows
produced by `csv.DictReader` over the tab-separated export text become a
`List Row` of named fields.
-/

namespace Netflix

/-- Model of `RankingEntry` (src/models.py): a single show/film in a Top 10 list.
Python ints are modelled as `Int`. -/
structure RankingEntry where
  rank : Int
  title : String
  weeks_in_top_10 : Int
  hours_viewed : Int := 0
deriving DecidableEq, Repr

/-- Model of `CountryRanking` (src/models.py): Top 10 rankings for one country, one
category, one week.  `fetched_at` (a `datetime` defaulted at construction
time) is modelled as a `Nat` timestamp supplied by the caller. -/
structure CountryRanking where
  week : String
  country : String
  country_name : String
  category : String
  source : String
  rankings : List RankingEntry
  fetched_at : Nat
deriving DecidableEq, Repr

/-- Model of `ScrapeResult` (src/models.py): result of a fetch operation from the
orchestrator. -/
structure ScrapeResult where
  rankings : List CountryRanking
  source_used : String
  errors : List String
deriving DecidableEq, Repr

/-- The behaviour of one underlying fetcher call (`fetch_latest_week` or
`fetch_all_countries`) as observed by the orchestrator: either it returns a
tuple of rankings (possibly empty) or it raises an exception rendered as a
message string. -/
abbrev FetchOutcome := Except String (List CountryRanking)

/-- Second `try` block of `fetch_rankings` (src/fetchers/orchestrator.py,
lines 73–97): attempt the HTML fallback with the errors accumulated so far,
then the exhausted case. -/
def afterTsv (errors : List String) (htmlFetch : FetchOutcome) : ScrapeResult :=
  match htmlFetch with
  | .ok rankings =>
    if rankings.isEmpty then
      { rankings := [], source_used := "none",
        errors := errors ++ ["HTML fallback returned zero results"] }
    else
      { rankings := rankings, source_used := "html_fallback", errors := errors }
  | .error exc =>
    { rankings := [], source_used := "none",
      errors := errors ++ ["HTML fallback failed: " ++ exc] }

/-- Model of `fetch_rankings` (src/fetchers/orchestrator.py): TSV primary, HTML
fallback, never raises.  The two `try/except Exception` blocks of the Python
code become `match`es on the two fetchers' `FetchOutcome`s; the function is
total, returning a `ScrapeResult` for every behaviour of the fetchers. -/
def fetch_rankings (tsvFetch htmlFetch : FetchOutcome) : ScrapeResult :=
  match tsvFetch with
  | .ok rankings =>
    if rankings.isEmpty then
      afterTsv ["TSV fetch returned zero results"] htmlFetch
    else
      { rankings := rankings, source_used := "tsv", errors := [] }
  | .error exc =>
    afterTsv ["TSV fetch failed: " ++ exc] htmlFetch

/-- A fetch attempt counts as failed in the orchestrator's sense: it either returned
zero results or raised. -/
def attemptFailed : FetchOutcome → Prop
  | .ok rankings => rankings = []
  | .error _ => True

/-- The error message `fetch_rankings` accumulates for a failed TSV attempt. -/
def tsvFailureMessage : FetchOutcome → String
  | .ok _ => "TSV fetch returned zero results"
  | .error exc => "TSV fetch failed: " ++ exc

/-- The error message `fetch_rankings` accumulates for a failed HTML attempt. -/
def htmlFailureMessage : FetchOutcome → String
  | .ok _ => "HTML fallback returned zero results"
  | .error exc => "HTML fallback failed: " ++ exc

/-- A sample entry used to instantiate witnesses. -/
def sampleEntry : RankingEntry :=
  { rank := 1, title := "Wednesday", weeks_in_top_10 := 2, hours_viewed := 0 }

/-- A sample country ranking used to instantiate witnesses. -/
def sampleRanking : CountryRanking :=
  { week := "2026-02-01", country := "united-states",
    country_name := "United States", category := "films",
    source := "html_fallback", rankings := [sampleEntry], fetched_at := 0 }

/-! ## Python string primitives

Python string operations are modelled at the character-list level so that
every definition is executable by kernel reduction.  Python compares
strings by code point, lexicographically. -/

/-- Python `a < b` on strings, lexicographic by code point, on the
underlying character lists. -/
def lexLt : List Char → List Char → Bool
  | [], [] => false
  | [], _ :: _ => true
  | _ :: _, [] => false
  | a :: as, b :: bs =>
    if a.toNat < b.toNat then true
    else if b.toNat < a.toNat then false
    else lexLt as bs

/-- Python `str.lower()`, ASCII model (the tracked names and category
labels are ASCII). -/
def pyLower (s : String) : String := ⟨s.data.map Char.toLower⟩

/-- Python `str.replace(pat, rep)`: replace every non-overlapping
occurrence of `pat`, scanning left to right.  Structural recursion on a
fuel bounded by the list length (each step consumes at least one
character, so the zero-fuel case is unreachable).  (For an empty `pat` —
never used by the code under study — this model returns the input
unchanged.) -/
def replaceListAux (pat rep : List Char) : Nat → List Char → List Char
  | _, [] => []
  | 0, l => l
  | fuel + 1, c :: cs =>
    if pat ≠ [] ∧ pat.isPrefixOf (c :: cs) then
      rep ++ replaceListAux pat rep fuel ((c :: cs).drop pat.length)
    else
      c :: replaceListAux pat rep fuel cs

/-- Python `str.replace(pat, rep)` on character lists. -/
def replaceList (pat rep l : List Char) : List Char :=
  replaceListAux pat rep l.length l

/-- Python `str.replace` lifted back to `String`. -/
def pyReplace (s pat rep : String) : String :=
  ⟨replaceList pat.data rep.data s.data⟩

/-- Whitespace stripped by Python `int(str)` — ASCII model. -/
def pyIsSpace (c : Char) : Bool :=
  c == ' ' || c == '\t' || c == '\n' || c == '\r' ||
  c == '\x0b' || c == '\x0c'

/-- Python `str.strip()` (ASCII whitespace model): drop leading and
trailing whitespace characters. -/
def pyStrip (l : List Char) : List Char :=
  ((l.dropWhile pyIsSpace).reverse.dropWhile pyIsSpace).reverse

/-- Digit run of a Python int literal after the first digit: ASCII digits
with single underscores allowed between digits. -/
def pyDigitsCore (acc : Nat) : List Char → Option Nat
  | [] => some acc
  | '_' :: c :: cs =>
    if c.isDigit then pyDigitsCore (acc * 10 + (c.toNat - 48)) cs else none
  | c :: cs =>
    if c.isDigit then pyDigitsCore (acc * 10 + (c.toNat - 48)) cs else none

/-- Digit run of a Python int literal: non-empty, leading digit. -/
def pyDigits : List Char → Option Nat
  | [] => none
  | c :: cs => if c.isDigit then pyDigitsCore (c.toNat - 48) cs else none

/-- Model of Python `int(value)` on a `str`: optional surrounding
whitespace, optional sign, non-empty digit run (underscore separators
allowed); `none` models a raised `ValueError`.  ASCII model — the export
data is ASCII. -/
def pyInt (value : String) : Option Int :=
  match pyStrip value.data with
  | '-' :: cs => (pyDigits cs).map (fun n => -(n : Int))
  | '+' :: cs => (pyDigits cs).map (fun n => (n : Int))
  | cs => (pyDigits cs).map (fun n => (n : Int))

/-! ## Python `sorted`

Python's `sorted` is a stable sort driven by a strict comparison; this
structural insertion sort is stable and places each element after all
earlier elements that do not compare strictly greater, which is exactly
the specification of `sorted`. -/

/-- Insert `x` into the already-sorted `l`, after every element `y` with
`lt x y = false` (so equal elements keep their original order). -/
def insertSorted (lt : α → α → Bool) (x : α) : List α → List α
  | [] => [x]
  | y :: ys => if lt x y then x :: y :: ys else y :: insertSorted lt x ys

/-- Model of Python `sorted(l)` with strict comparison `lt`: stable,
ascending. -/
def pySorted (lt : α → α → Bool) (l : List α) : List α :=
  l.foldl (fun acc x => insertSorted lt x acc) []

/-! ## Configuration (src/config.py) and the TSV fetcher
(src/fetchers/tsv_fetcher.py) -/

/-- The `TRACKED_COUNTRIES` table (src/config.py): display name → URL slug, the 18
tracked countries. -/
def TRACKED_COUNTRIES : List (String × String) := [
  ("South Korea", "south-korea"),
  ("Hong Kong", "hong-kong"),
  ("Taiwan", "taiwan"),
  ("Japan", "japan"),
  ("Thailand", "thailand"),
  ("Vietnam", "vietnam"),
  ("Philippines", "philippines"),
  ("Indonesia", "indonesia"),
  ("United States", "united-states"),
  ("Canada", "canada"),
  ("Brazil", "brazil"),
  ("Mexico", "mexico"),
  ("United Kingdom", "united-kingdom"),
  ("Germany", "germany"),
  ("France", "france"),
  ("Spain", "spain"),
  ("Italy", "italy"),
  ("Australia", "australia")]

/-- The set `tracked_names = set(TRACKED_COUNTRIES.keys())` in
`_parse_countries_tsv`. -/
def tracked_names : List String := TRACKED_COUNTRIES.map Prod.fst

/-- The `CATEGORY_MAP` table (src/fetchers/tsv_fetcher.py). -/
def CATEGORY_MAP : List (String × String) := [("Films", "films"), ("TV", "tv")]

/-- Model of `CATEGORY_MAP.get(category, category.lower())`. -/
def categorySlug (category : String) : String :=
  match CATEGORY_MAP.lookup category with
  | some slug => slug
  | none => pyLower category

/-- Model of `_country_slug` (src/fetchers/tsv_fetcher.py):
`name.lower().replace(" ", "-").replace(".", "")`. -/
def _country_slug (name : String) : String :=
  pyReplace (pyReplace (pyLower name) " " "-") "." ""

/-- Model of `_parse_int` (src/fetchers/tsv_fetcher.py): `try: return int(value)`,
`except (ValueError, TypeError): return 0`. -/
def _parse_int (value : String) : Int :=
  match pyInt value with
  | some n => n
  | none => 0

/-- One row of the tab-separated export, as produced by `csv.DictReader`
with `delimiter="\t"`: the named fields `_parse_countries_tsv` reads. -/
structure Row where
  country_name : String
  week : String
  category : String
  weekly_rank : String
  show_title : String
  cumulative_weeks_in_top_10 : String
deriving DecidableEq, Repr

/-- The key of the `grouped` dict: `(week, country_name, category)`. -/
abbrev GroupKey := String × String × String

/-- The key `(week, country_name, row["category"])` of a row. -/
def rowKey (row : Row) : GroupKey := (row.week, row.country_name, row.category)

/-- A row survives the first-pass filters of `_parse_countries_tsv`
(reaches `grouped[...].append(row)`): it is not skipped by
`if target_week and week != target_week` (note Python truthiness — `None`
and `""` deactivate the filter) nor by
`if country_name not in tracked_names`. -/
def rowKept (target_week : Option String) (row : Row) : Bool :=
  (match target_week with
   | none => true
   | some tw => if tw == "" then true else row.week == tw) &&
  tracked_names.contains row.country_name

/-- The `latest_week` accumulator of the first pass: running maximum of
`row["week"]` over all rows by plain string comparison
(`if week > latest_week`), starting from `""`. -/
def latestWeek (rows : List Row) : String :=
  rows.foldl
    (fun acc row => if lexLt acc.data row.week.data then row.week else acc) ""

/-- Python tuple `<` on group keys, as used by `sorted(grouped.items())`:
lexicographic on the three string components. -/
def keyLt (a b : GroupKey) : Bool :=
  lexLt a.1.data b.1.data ||
  (a.1 == b.1 && (lexLt a.2.1.data b.2.1.data ||
    (a.2.1 == b.2.1 && lexLt a.2.2.data b.2.2.data)))

/-- The comparison underlying
`sorted(rows, key=lambda r: _parse_int(r["weekly_rank"]))`. -/
def rankLt (a b : Row) : Bool :=
  decide (_parse_int a.weekly_rank < _parse_int b.weekly_rank)

/-- Keys not yet in `seen`, keeping first appearances, in order. -/
def dedupKeysAux (seen : List GroupKey) : List GroupKey → List GroupKey
  | [] => []
  | k :: ks =>
    if seen.contains k then dedupKeysAux seen ks
    else k :: dedupKeysAux (k :: seen) ks

/-- The distinct group keys in first-appearance order — the key set of the
`grouped` dict built by the first pass. -/
def dedupKeys (keys : List GroupKey) : List GroupKey := dedupKeysAux [] keys

/-- One `RankingEntry(...)` construction in `_parse_countries_tsv`. -/
def buildEntry (row : Row) : RankingEntry :=
  { rank := _parse_int row.weekly_rank,
    title := row.show_title,
    weeks_in_top_10 := _parse_int row.cumulative_weeks_in_top_10,
    hours_viewed := 0 }

/-- One `CountryRanking(...)` construction in `_parse_countries_tsv` for a
group key: the group's member rows are the surviving rows with that key,
in input order (the order they were appended to `grouped`), sorted by
parsed rank and mapped to entries. -/
def buildRanking (now : Nat) (survivors : List Row) (key : GroupKey) :
    CountryRanking :=
  { week := key.1,
    country := _country_slug key.2.1,
    country_name := key.2.1,
    category := categorySlug key.2.2,
    source := "tsv",
    rankings :=
      (pySorted rankLt
        (survivors.filter (fun row => rowKey row == key))).map buildEntry,
    fetched_at := now }

/-- The rows appended to `grouped` by the first pass of
`_parse_countries_tsv`, in order. -/
def survivorsOf (rows : List Row) (target_week : Option String) : List Row :=
  rows.filter (rowKept target_week)

/-- The group keys retained after the second pass's
`if target_week is None` discard: every group whose week is not the
detected `latest_week` is dropped; with a target week all groups stay. -/
def keptKeysOf (rows : List Row) (target_week : Option String) :
    List GroupKey :=
  match target_week with
  | none =>
    (dedupKeys ((survivorsOf rows none).map rowKey)).filter
      (fun k => k.1 == latestWeek rows)
  | some tw => dedupKeys ((survivorsOf rows (some tw)).map rowKey)

/-- Model of `_parse_countries_tsv` (src/fetchers/tsv_fetcher.py): the two-pass
parse.  The `csv.DictReader` front end is abstracted into the `rows`
argument; the `grouped` dict becomes the list of distinct surviving keys
(`keptKeysOf` after the latest-week discard) with per-key member lookup
in `buildRanking`; `sorted(grouped.items())` becomes `pySorted keyLt`
over the retained keys; `fetched_at = datetime.now(...)` becomes the
explicit `now`. -/
def _parse_countries_tsv (rows : List Row) (target_week : Option String)
    (now : Nat) : List CountryRanking :=
  (pySorted keyLt (keptKeysOf rows target_week)).map
    (buildRanking now (survivorsOf rows target_week))

/-! ## The validator (src/validation/validators.py) -/

/-- Model of `ValidationResult` (src/validation/validators.py). -/
structure ValidationResult where
  valid : Bool
  errors : List String
  warnings : List String
deriving DecidableEq, Repr

/-- The constant `MAX_RANK` (src/validation/validators.py). -/
def MAX_RANK : Int := 10

/-- The constant `MIN_RANK` (src/validation/validators.py). -/
def MIN_RANK : Int := 1

/-- The body of `for entry in ranking.rankings` in `validate_ranking`:
state is (errors, warnings, seen ranks).  The Python `set` of seen ranks
is modelled as the list of ranks seen so far. -/
def validateEntry (context : String)
    (state : List String × List String × List Int) (entry : RankingEntry) :
    List String × List String × List Int :=
  let (errors, warnings, seen) := state
  let entry_ctx := context ++ "/rank=" ++ toString entry.rank
  let errors :=
    if entry.rank < MIN_RANK || entry.rank > MAX_RANK then
      errors ++ [entry_ctx ++ ": rank out of range [1-10]"]
    else errors
  let errors :=
    if entry.title == "" || (⟨pyStrip entry.title.data⟩ : String) == "" then
      errors ++ [entry_ctx ++ ": empty title"]
    else errors
  let errors :=
    if seen.contains entry.rank then
      errors ++ [entry_ctx ++ ": duplicate rank"]
    else errors
  let seen := seen ++ [entry.rank]
  let warnings :=
    if entry.weeks_in_top_10 < 0 then
      warnings ++ [entry_ctx ++ ": negative weeks_in_top_10"]
    else warnings
  (errors, warnings, seen)

/-- Model of `validate_ranking` (src/validation/validators.py): empty-rankings
early return, category and week warnings, the per-entry loop, the
entry-count warning, and `valid = (len(errors) == 0)`.  `not title or not
title.strip()` is modelled with the ASCII `pyStrip`. -/
def validate_ranking (ranking : CountryRanking) : ValidationResult :=
  let context :=
    ranking.country ++ "/" ++ ranking.category ++ "/week=" ++ ranking.week
  if ranking.rankings.isEmpty then
    { valid := false, errors := [context ++ ": no ranking entries"],
      warnings := [] }
  else
    let warnings0 : List String :=
      (if ranking.category != "films" && ranking.category != "tv" then
        [context ++ ": unexpected category '" ++ ranking.category ++ "'"]
      else []) ++
      (if ranking.week == "unknown" then [context ++ ": week is unknown"]
      else [])
    let folded := ranking.rankings.foldl (validateEntry context) ([], warnings0, [])
    let errors := folded.1
    let warnings :=
      if (ranking.rankings.length : Int) != MAX_RANK then
        folded.2.1 ++ [context ++ ": expected 10 entries, got " ++
          toString ranking.rankings.length]
      else folded.2.1
    { valid := errors.length == 0, errors := errors, warnings := warnings }

/-! ## Derived notions and concrete data used by the statements -/

/-- All fields of a `CountryRanking` except the `fetched_at` capture
timestamp. -/
def crData (cr : CountryRanking) :
    String × String × String × String × String × List RankingEntry :=
  (cr.week, cr.country, cr.country_name, cr.category, cr.source, cr.rankings)

/-- Ascending comparison of emitted `CountryRanking` values, by
the tuple of their own `(week, country_name, category)` fields:
`¬ (b < a)` in the lexicographic string order. -/
def crTupleLe (a b : CountryRanking) : Bool :=
  !(keyLt (b.week, b.country_name, b.category)
      (a.week, a.country_name, a.category))

/-- One entry passes `validate_ranking`'s per-entry hard-error checks,
given the ranks already seen. -/
def entryOk (seen : List Int) (entry : RankingEntry) : Bool :=
  !(entry.rank < MIN_RANK || entry.rank > MAX_RANK) &&
  !(entry.title == "" || (⟨pyStrip entry.title.data⟩ : String) == "") &&
  !(seen.contains entry.rank)

/-- All entries pass the per-entry hard-error checks, threading the seen
ranks left to right. -/
def entriesOk : List Int → List RankingEntry → Bool
  | _, [] => true
  | seen, entry :: rest =>
    entryOk seen entry && entriesOk (seen ++ [entry.rank]) rest

/-- A TSV row: Japan / Films / week 2026-01-08 / rank 2. -/
def rowJB : Row := ⟨"Japan", "2026-01-08", "Films", "2", "B", "3"⟩

/-- A TSV row: Japan / Films / week 2026-01-08 / rank 1. -/
def rowJA : Row := ⟨"Japan", "2026-01-08", "Films", "1", "A", "1"⟩

/-- A TSV row: Japan / Films / earlier week 2026-01-01. -/
def rowJC : Row := ⟨"Japan", "2026-01-01", "Films", "1", "C", "1"⟩

/-- A TSV row: Canada / TV / week 2026-01-08. -/
def rowCE : Row := ⟨"Canada", "2026-01-08", "TV", "1", "E", "1"⟩

/-- A TSV row with a category label `"B"` outside the export schema. -/
def rowCatB : Row := ⟨"Japan", "2026-01-08", "B", "1", "X", "1"⟩

/-- A TSV row with a category label `"a"` outside the export schema. -/
def rowCatA : Row := ⟨"Japan", "2026-01-08", "a", "1", "Y", "1"⟩

/-- The ranking `_parse_countries_tsv [rowJB, rowJC] none 0` emits. -/
def c4cr : CountryRanking :=
  { week := "2026-01-08", country := "japan", country_name := "Japan",
    category := "films", source := "tsv",
    rankings := [{ rank := 2, title := "B", weeks_in_top_10 := 3,
                   hours_viewed := 0 }],
    fetched_at := 0 }

/-- A `CountryRanking` with an empty rankings tuple. -/
def crEmpty : CountryRanking :=
  { week := "2026-02-01", country := "united-states",
    country_name := "United States", category := "films", source := "tsv",
    rankings := [], fetched_at := 0 }

/-- C1: for every behaviour of the two underlying fetchers — non-empty
result, empty result, or raised exception, in any combination —
`fetch_rankings` returns a `ScrapeResult` (it is a total function into
`ScrapeResult`, the catch-all `except Exception` blocks leaving no
unhandled path), and the result is always one of the three tagged shapes. -/
theorem fetch_rankings_never_raises (tsvFetch htmlFetch : FetchOutcome) :
    (fetch_rankings tsvFetch htmlFetch).source_used = "tsv" ∨
    (fetch_rankings tsvFetch htmlFetch).source_used = "html_fallback" ∨
    (fetch_rankings tsvFetch htmlFetch).source_used = "none" := by
  cases tsvFetch with
  | ok rankings =>
    by_cases h : rankings.isEmpty <;>
      cases htmlFetch with
      | ok rankings2 =>
        by_cases h2 : rankings2.isEmpty <;>
          simp [fetch_rankings, afterTsv, h, h2]
      | error exc => simp [fetch_rankings, afterTsv, h]
  | error exc =>
    cases htmlFetch with
    | ok rankings2 =>
      by_cases h2 : rankings2.isEmpty <;>
        simp [fetch_rankings, afterTsv, h2]
    | error exc2 => simp [fetch_rankings, afterTsv]

/-- C2: when both attempts fail (raise or return zero results),
`fetch_rankings` returns `source_used = "none"`, empty `rankings`, and
exactly one accumulated message per failed attempt — the TSV message first,
the HTML message second. -/
theorem fetch_rankings_both_fail (tsvFetch htmlFetch : FetchOutcome)
    (h1 : attemptFailed tsvFetch) (h2 : attemptFailed htmlFetch) :
    fetch_rankings tsvFetch htmlFetch =
      { rankings := [], source_used := "none",
        errors := [tsvFailureMessage tsvFetch, htmlFailureMessage htmlFetch] } := by
  cases tsvFetch with
  | ok rankings =>
    have hr : rankings = [] := h1
    subst hr
    cases htmlFetch with
    | ok rankings2 =>
      have hr2 : rankings2 = [] := h2
      subst hr2
      simp [fetch_rankings, afterTsv, tsvFailureMessage, htmlFailureMessage]
    | error exc =>
      simp [fetch_rankings, afterTsv, tsvFailureMessage, htmlFailureMessage]
  | error exc =>
    cases htmlFetch with
    | ok rankings2 =>
      have hr2 : rankings2 = [] := h2
      subst hr2
      simp [fetch_rankings, afterTsv, tsvFailureMessage, htmlFailureMessage]
    | error exc2 =>
      simp [fetch_rankings, afterTsv, tsvFailureMessage, htmlFailureMessage]

/-- Witness for C2 at a concrete input: TSV returns zero results and the
HTML fallback raises. -/
theorem fetch_rankings_both_fail_witness :
    fetch_rankings (Except.ok []) (Except.error ("boom")) =
      { rankings := [], source_used := "none",
        errors := ["TSV fetch returned zero results",
                   "HTML fallback failed: boom"] } :=
  fetch_rankings_both_fail (Except.ok []) (Except.error ("boom")) rfl trivial

/-- C3: if the TSV attempt raises, the orchestrator still attempts the HTML
path — a non-empty HTML result is returned as `html_fallback` — and the TSV
failure message is in the returned `errors` in every case. -/
theorem fetch_rankings_tsv_raise_falls_back (exc : String)
    (htmlFetch : FetchOutcome) :
    ("TSV fetch failed: " ++ exc) ∈
        (fetch_rankings (Except.error exc) htmlFetch).errors ∧
    (∀ rankings, htmlFetch = Except.ok rankings → rankings ≠ [] →
      fetch_rankings (Except.error exc) htmlFetch =
        { rankings := rankings, source_used := "html_fallback",
          errors := ["TSV fetch failed: " ++ exc] }) := by
  constructor
  · cases htmlFetch with
    | ok rankings =>
      by_cases h : rankings.isEmpty <;>
        simp [fetch_rankings, afterTsv, h]
    | error exc2 => simp [fetch_rankings, afterTsv]
  · intro rankings hhtml hne
    subst hhtml
    have h : rankings.isEmpty = false := by
      simpa [List.isEmpty_iff] using hne
    simp [fetch_rankings, afterTsv, h]

/-- Witness for C3 at a concrete input: TSV raises `"boom"`, HTML returns
one ranking. -/
theorem fetch_rankings_tsv_raise_falls_back_witness :
    ("TSV fetch failed: " ++ "boom") ∈
        (fetch_rankings (Except.error ("boom"))
          (Except.ok [sampleRanking])).errors ∧
    fetch_rankings (Except.error ("boom")) (Except.ok [sampleRanking]) =
      { rankings := [sampleRanking], source_used := "html_fallback",
        errors := ["TSV fetch failed: " ++ "boom"] } := by
  have h := fetch_rankings_tsv_raise_falls_back ("boom") (Except.ok [sampleRanking])
  exact ⟨h.1, h.2 [sampleRanking] rfl (by simp)⟩

/-- C9: invariant of every orchestrator result — the rankings are empty
exactly when `source_used = "none"`, and a non-empty result is tagged with
the fetcher (`"tsv"` or `"html_fallback"`) whose outcome it is. -/
theorem fetch_rankings_empty_iff_none (tsvFetch htmlFetch : FetchOutcome) :
    ((fetch_rankings tsvFetch htmlFetch).rankings = [] ↔
      (fetch_rankings tsvFetch htmlFetch).source_used = "none") ∧
    ((fetch_rankings tsvFetch htmlFetch).rankings ≠ [] →
      ((fetch_rankings tsvFetch htmlFetch).source_used = "tsv" ∧
        tsvFetch = Except.ok (fetch_rankings tsvFetch htmlFetch).rankings) ∨
      ((fetch_rankings tsvFetch htmlFetch).source_used = "html_fallback" ∧
        htmlFetch = Except.ok (fetch_rankings tsvFetch htmlFetch).rankings)) := by
  cases tsvFetch with
  | ok rankings =>
    by_cases h : rankings.isEmpty
    · have hr : rankings = [] := by simpa [List.isEmpty_iff] using h
      subst hr
      cases htmlFetch with
      | ok rankings2 =>
        by_cases h2 : rankings2.isEmpty
        · have hr2 : rankings2 = [] := by simpa [List.isEmpty_iff] using h2
          subst hr2
          simp [fetch_rankings, afterTsv]
        · have hr2 : rankings2 ≠ [] := by simpa [List.isEmpty_iff] using h2
          simp [fetch_rankings, afterTsv, h2, hr2]
      | error exc => simp [fetch_rankings, afterTsv]
    · have hr : rankings ≠ [] := by simpa [List.isEmpty_iff] using h
      simp [fetch_rankings, afterTsv, h, hr]
  | error exc =>
    cases htmlFetch with
    | ok rankings2 =>
      by_cases h2 : rankings2.isEmpty
      · have hr2 : rankings2 = [] := by simpa [List.isEmpty_iff] using h2
        subst hr2
        simp [fetch_rankings, afterTsv]
      · have hr2 : rankings2 ≠ [] := by simpa [List.isEmpty_iff] using h2
        simp [fetch_rankings, afterTsv, h2, hr2]
    | error exc2 => simp [fetch_rankings, afterTsv]

/-- Witness for C9 at a concrete input: TSV raises, HTML returns one
ranking, so the non-empty result is tagged `"html_fallback"`. -/
theorem fetch_rankings_empty_iff_none_witness :
    (fetch_rankings (Except.error ("boom"))
        (Except.ok [sampleRanking])).source_used = "html_fallback" := by
  have h := fetch_rankings_empty_iff_none (Except.error ("boom"))
    (Except.ok [sampleRanking])
  have hne : (fetch_rankings (Except.error ("boom"))
      (Except.ok [sampleRanking])).rankings ≠ [] := by
    simp [fetch_rankings, afterTsv, sampleRanking]
  rcases h.2 hne with ⟨htag, _⟩ | ⟨htag, _⟩
  · exact absurd htag (by simp [fetch_rankings, afterTsv, sampleRanking])
  · exact htag

/-! ## Lexicographic-order lemmas -/

theorem lexLt_irrefl : ∀ l : List Char, lexLt l l = false := by
  intro l
  induction l with
  | nil => rfl
  | cons c cs ih => simp [lexLt, ih]

theorem lexLt_asymm : ∀ a b : List Char, lexLt a b = true → lexLt b a = false := by
  intro a
  induction a with
  | nil =>
    intro b h
    cases b with
    | nil => simp [lexLt] at h
    | cons y ys => rfl
  | cons x xs ih =>
    intro b h
    cases b with
    | nil => simp [lexLt] at h
    | cons y ys =>
      simp only [lexLt] at h ⊢
      by_cases h1 : x.toNat < y.toNat
      · have h2 : ¬ y.toNat < x.toNat := by omega
        simp [h1, h2]
      · by_cases h2 : y.toNat < x.toNat
        · simp [h1, h2] at h
        · simp only [h1, h2, if_false] at h ⊢
          exact ih ys h

theorem lexLt_conn : ∀ a b : List Char,
    lexLt a b = false → lexLt b a = false → a = b := by
  intro a
  induction a with
  | nil =>
    intro b h1 h2
    cases b with
    | nil => rfl
    | cons y ys => simp [lexLt] at h1
  | cons x xs ih =>
    intro b h1 h2
    cases b with
    | nil => simp [lexLt] at h2
    | cons y ys =>
      simp only [lexLt] at h1 h2
      by_cases hxy : x.toNat < y.toNat
      · simp [hxy] at h1
      · by_cases hyx : y.toNat < x.toNat
        · simp [hxy, hyx] at h2
        · simp only [hxy, hyx, if_false] at h1 h2
          have hn : x.toNat = y.toNat := by omega
          have hx : x = y := Char.eq_of_val_eq (UInt32.ext hn)
          rw [hx, ih ys h1 h2]

theorem lexLt_negtrans : ∀ a b c : List Char,
    lexLt b a = false → lexLt c b = false → lexLt c a = false := by
  intro a
  induction a with
  | nil =>
    intro b c h1 h2
    cases c with
    | nil => rfl
    | cons z zs => rfl
  | cons x xs ih =>
    intro b c h1 h2
    cases b with
    | nil => simp [lexLt] at h1
    | cons y ys =>
      cases c with
      | nil => simp [lexLt] at h2
      | cons z zs =>
        simp only [lexLt] at h1 h2 ⊢
        by_cases hyx : y.toNat < x.toNat
        · simp [hyx] at h1
        · by_cases hzy : z.toNat < y.toNat
          · simp [hzy] at h2
          · have hzx : ¬ z.toNat < x.toNat := by omega
            simp only [hyx, hzy, hzx, if_false] at h1 h2 ⊢
            by_cases hxz : x.toNat < z.toNat
            · simp [hxz]
            · have hxy : ¬ x.toNat < y.toNat := by omega
              have hyz : ¬ y.toNat < z.toNat := by omega
              simp only [hxy, hyz, if_false] at h1 h2
              simp only [hxz, if_false]
              exact ih ys zs h1 h2

/-! ## Sorting lemmas for `pySorted` -/

theorem insertSorted_perm {α : Type} (lt : α → α → Bool) (x : α) :
    ∀ l : List α, (insertSorted lt x l).Perm (x :: l) := by
  intro l
  induction l with
  | nil => exact List.Perm.refl _
  | cons y ys ih =>
    simp only [insertSorted]
    by_cases h : lt x y = true
    · rw [if_pos h]
    · rw [if_neg h]
      exact (ih.cons y).trans (List.Perm.swap x y ys)

theorem pySorted_perm_aux {α : Type} (lt : α → α → Bool) :
    ∀ (l acc : List α),
      (l.foldl (fun acc x => insertSorted lt x acc) acc).Perm (acc ++ l) := by
  intro l
  induction l with
  | nil => intro acc; simp
  | cons x xs ih =>
    intro acc
    simp only [List.foldl_cons]
    refine (ih (insertSorted lt x acc)).trans ?_
    refine (((insertSorted_perm lt x acc).append_right xs).trans ?_)
    exact List.perm_middle.symm

theorem pySorted_perm {α : Type} (lt : α → α → Bool) (l : List α) :
    (pySorted lt l).Perm l := by
  simpa [pySorted] using pySorted_perm_aux lt l []

theorem insertSorted_pairwise {α : Type} (lt : α → α → Bool)
    (hasymm : ∀ a b, lt a b = true → lt b a = false)
    (hneg : ∀ a b c, lt b a = false → lt c b = false → lt c a = false)
    (x : α) :
    ∀ l : List α, l.Pairwise (fun a b => lt b a = false) →
      (insertSorted lt x l).Pairwise (fun a b => lt b a = false) := by
  intro l
  induction l with
  | nil => intro _; simp [insertSorted]
  | cons y ys ih =>
    intro hl
    rw [List.pairwise_cons] at hl
    obtain ⟨hy, hys⟩ := hl
    simp only [insertSorted]
    by_cases h : lt x y = true
    · rw [if_pos h, List.pairwise_cons]
      constructor
      · intro z hz
        rcases List.mem_cons.mp hz with rfl | hz2
        · exact hasymm x z h
        · exact hneg x y z (hasymm x y h) (hy z hz2)
      · exact List.pairwise_cons.mpr ⟨hy, hys⟩
    · rw [if_neg h, List.pairwise_cons]
      constructor
      · intro z hz
        have hz2 : z ∈ x :: ys := (insertSorted_perm lt x ys).mem_iff.mp hz
        rcases List.mem_cons.mp hz2 with rfl | hz3
        · exact Bool.eq_false_iff.mpr h
        · exact hy z hz3
      · exact ih hys

theorem pySorted_pairwise_aux {α : Type} (lt : α → α → Bool)
    (hasymm : ∀ a b, lt a b = true → lt b a = false)
    (hneg : ∀ a b c, lt b a = false → lt c b = false → lt c a = false) :
    ∀ (l acc : List α), acc.Pairwise (fun a b => lt b a = false) →
      (l.foldl (fun acc x => insertSorted lt x acc) acc).Pairwise
        (fun a b => lt b a = false) := by
  intro l
  induction l with
  | nil => intro acc h; simpa using h
  | cons x xs ih =>
    intro acc h
    simp only [List.foldl_cons]
    exact ih _ (insertSorted_pairwise lt hasymm hneg x acc h)

theorem pySorted_pairwise {α : Type} (lt : α → α → Bool)
    (hasymm : ∀ a b, lt a b = true → lt b a = false)
    (hneg : ∀ a b c, lt b a = false → lt c b = false → lt c a = false)
    (l : List α) :
    (pySorted lt l).Pairwise (fun a b => lt b a = false) :=
  pySorted_pairwise_aux lt hasymm hneg l [] (List.Pairwise.nil)

/-! ## Lemmas about `dedupKeys` -/

theorem dedupKeysAux_subset :
    ∀ (l seen : List GroupKey) (k : GroupKey),
      k ∈ dedupKeysAux seen l → k ∈ l := by
  intro l
  induction l with
  | nil => intro seen k h; simp [dedupKeysAux] at h
  | cons k0 ks ih =>
    intro seen k h
    simp only [dedupKeysAux] at h
    by_cases hs : seen.contains k0 = true
    · rw [if_pos hs] at h
      exact List.mem_cons_of_mem _ (ih seen k h)
    · rw [if_neg hs] at h
      rcases List.mem_cons.mp h with rfl | h2
      · exact List.mem_cons_self _ _
      · exact List.mem_cons_of_mem _ (ih _ k h2)

theorem dedupKeysAux_not_mem_seen :
    ∀ (l seen : List GroupKey) (k : GroupKey),
      k ∈ dedupKeysAux seen l → k ∉ seen := by
  intro l
  induction l with
  | nil => intro seen k h; simp [dedupKeysAux] at h
  | cons k0 ks ih =>
    intro seen k h
    simp only [dedupKeysAux] at h
    by_cases hs : seen.contains k0 = true
    · rw [if_pos hs] at h
      exact ih seen k h
    · rw [if_neg hs] at h
      rcases List.mem_cons.mp h with rfl | h2
      · intro hk
        exact hs (List.elem_iff.mpr hk)
      · intro hk
        exact ih (k0 :: seen) k h2 (List.mem_cons_of_mem _ hk)

theorem dedupKeysAux_nodup :
    ∀ (l seen : List GroupKey), (dedupKeysAux seen l).Nodup := by
  intro l
  induction l with
  | nil => intro seen; simp [dedupKeysAux]
  | cons k0 ks ih =>
    intro seen
    simp only [dedupKeysAux]
    by_cases hs : seen.contains k0 = true
    · rw [if_pos hs]; exact ih seen
    · rw [if_neg hs]
      rw [List.nodup_cons]
      refine ⟨fun hmem => ?_, ih _⟩
      exact dedupKeysAux_not_mem_seen ks (k0 :: seen) k0 hmem
        (List.mem_cons_self _ _)

theorem dedupKeys_subset (l : List GroupKey) (k : GroupKey)
    (h : k ∈ dedupKeys l) : k ∈ l :=
  dedupKeysAux_subset l [] k h

theorem dedupKeys_nodup (l : List GroupKey) : (dedupKeys l).Nodup :=
  dedupKeysAux_nodup l []

/-! ## Lemmas about `latestWeek` -/

theorem latestWeek_step_ge (acc : String) (row : Row) :
    lexLt (if lexLt acc.data row.week.data then row.week else acc).data
      acc.data = false := by
  by_cases h : lexLt acc.data row.week.data = true
  · rw [if_pos h]
    exact lexLt_asymm _ _ h
  · rw [if_neg h]
    exact lexLt_irrefl _

theorem latestWeek_step_ge_week (acc : String) (row : Row) :
    lexLt (if lexLt acc.data row.week.data then row.week else acc).data
      row.week.data = false := by
  by_cases h : lexLt acc.data row.week.data = true
  · rw [if_pos h]
    exact lexLt_irrefl _
  · rw [if_neg h]
    exact Bool.eq_false_iff.mpr h

theorem foldl_week_ge :
    ∀ (l : List Row) (acc : String),
      lexLt (l.foldl
        (fun acc row => if lexLt acc.data row.week.data then row.week else acc)
        acc).data acc.data = false := by
  intro l
  induction l with
  | nil => intro acc; exact lexLt_irrefl _
  | cons r rs ih =>
    intro acc
    simp only [List.foldl_cons]
    exact lexLt_negtrans _ _ _ (latestWeek_step_ge acc r) (ih _)

theorem foldl_week_ge_mem :
    ∀ (l : List Row) (acc : String) (r : Row), r ∈ l →
      lexLt (l.foldl
        (fun acc row => if lexLt acc.data row.week.data then row.week else acc)
        acc).data r.week.data = false := by
  intro l
  induction l with
  | nil => intro acc r h; simp at h
  | cons x xs ih =>
    intro acc r h
    simp only [List.foldl_cons]
    rcases List.mem_cons.mp h with rfl | h2
    · exact lexLt_negtrans _ _ _ (latestWeek_step_ge_week acc r) (foldl_week_ge xs _)
    · exact ih _ r h2

theorem foldl_week_attained :
    ∀ (l : List Row) (acc : String),
      (l.foldl
        (fun acc row => if lexLt acc.data row.week.data then row.week else acc)
        acc) = acc ∨
      (l.foldl
        (fun acc row => if lexLt acc.data row.week.data then row.week else acc)
        acc) ∈ l.map Row.week := by
  intro l
  induction l with
  | nil => intro acc; exact Or.inl rfl
  | cons x xs ih =>
    intro acc
    simp only [List.foldl_cons]
    by_cases hx : lexLt acc.data x.week.data = true
    · rw [if_pos hx]
      rcases ih x.week with h | h
      · exact Or.inr (by rw [h]; simp)
      · exact Or.inr (List.mem_cons_of_mem _ h)
    · rw [if_neg hx]
      rcases ih acc with h | h
      · exact Or.inl h
      · exact Or.inr (List.mem_cons_of_mem _ h)

/-- The value `latestWeek rows` is an upper bound of every row's week. -/
theorem latestWeek_is_max (rows : List Row) (r : Row) (h : r ∈ rows) :
    lexLt (latestWeek rows).data r.week.data = false :=
  foldl_week_ge_mem rows ("") r h

/-- The value `latestWeek rows` is `""` or one of the rows' weeks. -/
theorem latestWeek_attained (rows : List Row) :
    latestWeek rows = "" ∨ latestWeek rows ∈ rows.map Row.week :=
  foldl_week_attained rows ("")

/-! ## Order lemmas for `keyLt` and `rankLt` -/

theorem keyLt_asymm : ∀ a b : GroupKey, keyLt a b = true → keyLt b a = false := by
  intro a b h
  rw [Bool.eq_false_iff]
  intro hc
  obtain ⟨a1, a2, a3⟩ := a
  obtain ⟨b1, b2, b3⟩ := b
  simp only [keyLt, Bool.or_eq_true, Bool.and_eq_true, beq_iff_eq] at h hc
  rcases h with h1 | ⟨he1, h2 | ⟨he2, h3⟩⟩
  · rcases hc with c1 | ⟨ce1, _⟩
    · rw [lexLt_asymm _ _ h1] at c1
      exact Bool.false_ne_true c1
    · rw [ce1, lexLt_irrefl] at h1
      exact Bool.false_ne_true h1
  · rcases hc with c1 | ⟨ce1, c2 | ⟨ce2, c3⟩⟩
    · rw [he1, lexLt_irrefl] at c1
      exact Bool.false_ne_true c1
    · rw [lexLt_asymm _ _ h2] at c2
      exact Bool.false_ne_true c2
    · rw [ce2, lexLt_irrefl] at h2
      exact Bool.false_ne_true h2
  · rcases hc with c1 | ⟨ce1, c2 | ⟨ce2, c3⟩⟩
    · rw [he1, lexLt_irrefl] at c1
      exact Bool.false_ne_true c1
    · rw [he2, lexLt_irrefl] at c2
      exact Bool.false_ne_true c2
    · rw [lexLt_asymm _ _ h3] at c3
      exact Bool.false_ne_true c3

theorem keyLt_conn : ∀ a b : GroupKey,
    keyLt a b = false → keyLt b a = false → a = b := by
  intro a b h1 h2
  obtain ⟨a1, a2, a3⟩ := a
  obtain ⟨b1, b2, b3⟩ := b
  simp only [keyLt, Bool.or_eq_false_iff, Bool.and_eq_false_iff,
    beq_eq_false_iff_ne] at h1 h2
  obtain ⟨l1, h1r⟩ := h1
  obtain ⟨m1, h2r⟩ := h2
  have he1 : a1 = b1 := String.ext (lexLt_conn _ _ l1 m1)
  subst he1
  rcases h1r with hne | ⟨l2, h1rr⟩
  · exact absurd rfl hne
  · rcases h2r with hne | ⟨m2, h2rr⟩
    · exact absurd rfl hne
    · have he2 : a2 = b2 := String.ext (lexLt_conn _ _ l2 m2)
      subst he2
      rcases h1rr with hne | n1
      · exact absurd rfl hne
      · rcases h2rr with hne | n2
        · exact absurd rfl hne
        · have he3 : a3 = b3 := String.ext (lexLt_conn _ _ n1 n2)
          rw [he3]

theorem keyLt_negtrans : ∀ a b c : GroupKey,
    keyLt b a = false → keyLt c b = false → keyLt c a = false := by
  intro a b c h1 h2
  obtain ⟨a1, a2, a3⟩ := a
  obtain ⟨b1, b2, b3⟩ := b
  obtain ⟨c1, c2, c3⟩ := c
  simp only [keyLt, Bool.or_eq_false_iff, Bool.and_eq_false_iff,
    beq_eq_false_iff_ne] at h1 h2 ⊢
  obtain ⟨l1, h1r⟩ := h1
  obtain ⟨m1, h2r⟩ := h2
  refine ⟨lexLt_negtrans _ _ _ l1 m1, ?_⟩
  by_cases hca : c1 = a1
  · have m1' : lexLt a1.data b1.data = false := by rw [← hca]; exact m1
    have hb1 : b1 = a1 := String.ext (lexLt_conn _ _ l1 m1')
    rcases h1r with hne | ⟨l2, h1rr⟩
    · exact absurd hb1 hne
    · rcases h2r with hne | ⟨m2, h2rr⟩
      · exact absurd (hca.trans hb1.symm) hne
      · refine Or.inr ⟨lexLt_negtrans _ _ _ l2 m2, ?_⟩
        by_cases hca2 : c2 = a2
        · have m2' : lexLt a2.data b2.data = false := by rw [← hca2]; exact m2
          have hb2 : b2 = a2 := String.ext (lexLt_conn _ _ l2 m2')
          rcases h1rr with hne | n1
          · exact absurd hb2 hne
          · rcases h2rr with hne | n2
            · exact absurd (hca2.trans hb2.symm) hne
            · exact Or.inr (lexLt_negtrans _ _ _ n1 n2)
        · exact Or.inl hca2
  · exact Or.inl hca

theorem rankLt_asymm : ∀ a b : Row, rankLt a b = true → rankLt b a = false := by
  intro a b h
  simp only [rankLt, decide_eq_true_eq] at h
  simp only [rankLt, decide_eq_false_iff_not]
  omega

theorem rankLt_negtrans : ∀ a b c : Row,
    rankLt b a = false → rankLt c b = false → rankLt c a = false := by
  intro a b c h1 h2
  simp only [rankLt, decide_eq_false_iff_not] at h1 h2 ⊢
  omega

/-! ## Claims about the TSV parser -/

/-- C4: with no target week, `_parse_countries_tsv` tracks the maximum
week string over all the export's rows using plain string comparison
(`latestWeek` is an upper bound of every row's week and is one of the
rows' weeks unless the export is empty), and every `CountryRanking` it
emits carries exactly that detected maximum week — groups with any other
week are discarded. -/
theorem parse_tsv_no_target_latest_week (rows : List Row) (now : Nat)
    (cr : CountryRanking) (hcr : cr ∈ _parse_countries_tsv rows none now) :
    cr.week = latestWeek rows ∧
    (∀ r ∈ rows, lexLt (latestWeek rows).data r.week.data = false) ∧
    (latestWeek rows = "" ∨ latestWeek rows ∈ rows.map Row.week) := by
  refine ⟨?_, fun r hr => latestWeek_is_max rows r hr, latestWeek_attained rows⟩
  rcases List.mem_map.mp hcr with ⟨k, hk, rfl⟩
  have hk2 := (pySorted_perm keyLt _).mem_iff.mp hk
  simp only [keptKeysOf] at hk2
  have hk3 := (List.mem_filter.mp hk2).2
  have hk4 : k.1 = latestWeek rows := by simpa using hk3
  simpa [buildRanking] using hk4

/-- Witness for C4 at a concrete export: two Japan/Films rows in
different weeks; the single emitted ranking carries the later week. -/
theorem parse_tsv_no_target_latest_week_witness :
    c4cr ∈ _parse_countries_tsv [rowJB, rowJC] none 0 ∧
    c4cr.week = latestWeek [rowJB, rowJC] :=
  ⟨by decide,
   (parse_tsv_no_target_latest_week [rowJB, rowJC] 0 c4cr (by decide)).1⟩

/-- C6: `_parse_int` never raises — it is a total function on strings —
and evaluates to 0 exactly when Python `int()` would raise on the string
(`pyInt` returns `none`), and to the parsed value otherwise. -/
theorem parse_int_defaults_to_zero (value : String) :
    (pyInt value = none → _parse_int value = 0) ∧
    (∀ n : Int, pyInt value = some n → _parse_int value = n) := by
  constructor
  · intro h
    simp [_parse_int, h]
  · intro n h
    simp [_parse_int, h]

/-- Witness for C6 at concrete unparsable inputs: non-numeric text and
the empty string both degrade to 0 without raising. -/
theorem parse_int_defaults_to_zero_witness :
    (pyInt ("N/A") = none ∧ _parse_int ("N/A") = 0) ∧
    (pyInt ("") = none ∧ _parse_int ("") = 0) :=
  ⟨⟨by decide, (parse_int_defaults_to_zero ("N/A")).1 (by decide)⟩,
   ⟨by decide, (parse_int_defaults_to_zero ("")).1 (by decide)⟩⟩

/-- C7: parsing the same export rows twice with the same target week
yields structurally identical sequences — entity-by-entity equal on every
field except the `fetched_at` capture timestamp. -/
theorem parse_tsv_idempotent (rows : List Row) (target_week : Option String)
    (now1 now2 : Nat) :
    (_parse_countries_tsv rows target_week now1).map crData =
      (_parse_countries_tsv rows target_week now2).map crData := by
  simp only [_parse_countries_tsv, List.map_map]
  rfl

/-- C10: the parser computes each emitted ranking's country slug from the
country name via `_country_slug` (lowercase, spaces to hyphens, periods
removed) rather than looking it up in `TRACKED_COUNTRIES`, and for each
of the 18 tracked country names the computed slug equals the configured
slug. -/
theorem country_slug_matches_config (name slug : String)
    (h : (name, slug) ∈ TRACKED_COUNTRIES) :
    _country_slug name = slug ∧
    (∀ (rows : List Row) (target_week : Option String) (now : Nat)
      (cr : CountryRanking), cr ∈ _parse_countries_tsv rows target_week now →
      cr.country = _country_slug cr.country_name) := by
  constructor
  · have hall :
        TRACKED_COUNTRIES.all (fun p => _country_slug p.1 == p.2) = true := by
      decide
    have h2 := List.all_eq_true.mp hall (name, slug) h
    simpa using h2
  · intro rows tw now cr hcr
    rcases List.mem_map.mp hcr with ⟨k, _, rfl⟩
    rfl

/-- Witness for C10 at a concrete tracked country. -/
theorem country_slug_matches_config_witness :
    _country_slug ("United States") = "united-states" :=
  (country_slug_matches_config ("United States") ("united-states") (by decide)).1

/-- If `a < b` as raw group keys and both category labels are in the
export schema (`"Films"`/`"TV"`), then mapping the categories through
`categorySlug` cannot flip the order: the slugged `b`-tuple is not below
the slugged `a`-tuple. -/
theorem keyLt_slug_flip (a b : GroupKey)
    (hca : a.2.2 = "Films" ∨ a.2.2 = "TV")
    (hcb : b.2.2 = "Films" ∨ b.2.2 = "TV")
    (h : keyLt a b = true) :
    keyLt (b.1, b.2.1, categorySlug b.2.2)
      (a.1, a.2.1, categorySlug a.2.2) = false := by
  rw [Bool.eq_false_iff]
  intro hc
  obtain ⟨a1, a2, a3⟩ := a
  obtain ⟨b1, b2, b3⟩ := b
  simp only at hca hcb
  simp only [keyLt, Bool.or_eq_true, Bool.and_eq_true, beq_iff_eq] at h hc
  rcases h with h1 | ⟨he1, h2 | ⟨he2, h3⟩⟩
  · rcases hc with c1 | ⟨ce1, _⟩
    · rw [lexLt_asymm _ _ h1] at c1
      exact Bool.false_ne_true c1
    · rw [ce1, lexLt_irrefl] at h1
      exact Bool.false_ne_true h1
  · rcases hc with c1 | ⟨ce1, c2 | ⟨ce2, c3⟩⟩
    · rw [he1, lexLt_irrefl] at c1
      exact Bool.false_ne_true c1
    · rw [lexLt_asymm _ _ h2] at c2
      exact Bool.false_ne_true c2
    · rw [ce2, lexLt_irrefl] at h2
      exact Bool.false_ne_true h2
  · rcases hc with c1 | ⟨ce1, c2 | ⟨ce2, c3⟩⟩
    · rw [he1, lexLt_irrefl] at c1
      exact Bool.false_ne_true c1
    · rw [he2, lexLt_irrefl] at c2
      exact Bool.false_ne_true c2
    · rcases hca with ha | ha <;> rcases hcb with hb | hb <;>
        rw [ha, hb] at h3 c3
      · exact absurd h3 (by decide)
      · exact absurd c3 (by decide)
      · exact absurd h3 (by decide)
      · exact absurd h3 (by decide)

/-- Mapping `buildRanking` over keys sorted by `keyLt` yields a sequence
pairwise ascending in the emitted `(week, country_name, category)`
tuples, provided the keys are distinct and their category labels are in
the export schema. -/
theorem sorted_build_pairwise (now : Nat) (survivors : List Row)
    (ks : List GroupKey) (hnodup : ks.Nodup)
    (hcats : ∀ k ∈ ks, k.2.2 = "Films" ∨ k.2.2 = "TV") :
    List.Pairwise (fun a b => crTupleLe a b = true)
      ((pySorted keyLt ks).map (buildRanking now survivors)) := by
  rw [List.pairwise_map]
  have hp := pySorted_pairwise keyLt keyLt_asymm keyLt_negtrans ks
  have hnd : (pySorted keyLt ks).Nodup :=
    ((pySorted_perm keyLt ks).nodup_iff).mpr hnodup
  have hcomb := hp.and hnd
  refine List.Pairwise.imp_of_mem ?_ hcomb
  intro a b ha hb hab
  obtain ⟨hle, hne⟩ := hab
  have hstrict : keyLt a b = true := by
    by_contra hcon
    exact hne (keyLt_conn a b (Bool.eq_false_iff.mpr hcon) hle)
  have hflip := keyLt_slug_flip a b
    (hcats a ((pySorted_perm keyLt ks).mem_iff.mp ha))
    (hcats b ((pySorted_perm keyLt ks).mem_iff.mp hb))
    hstrict
  simpa [crTupleLe, buildRanking] using hflip

/-- Every key retained by `keptKeysOf` carries the category label of one
of the input rows. -/
theorem keptKeysOf_cats (rows : List Row) (target_week : Option String)
    (k : GroupKey) (hk : k ∈ keptKeysOf rows target_week) :
    ∃ r ∈ rows, k.2.2 = r.category := by
  have hk2 : k ∈ dedupKeys ((survivorsOf rows target_week).map rowKey) := by
    cases target_week with
    | none => exact (List.mem_filter.mp hk).1
    | some tw => exact hk
  have hk3 := dedupKeys_subset _ k hk2
  rcases List.mem_map.mp hk3 with ⟨r, hr, rfl⟩
  exact ⟨r, (List.mem_filter.mp hr).1, rfl⟩

/-- The keys retained by `keptKeysOf` are distinct. -/
theorem keptKeysOf_nodup (rows : List Row) (target_week : Option String) :
    (keptKeysOf rows target_week).Nodup := by
  cases target_week with
  | none => exact (dedupKeys_nodup _).filter _
  | some tw => exact dedupKeys_nodup _

/-- C5 counterexample: on an export whose category labels are outside the
schema (`"B"` and `"a"`), the parser sorts groups by the raw labels but
stores the lowercased slug, so the emitted sequence is NOT sorted
ascending by the tuple of its own `(week, country_name, category)`
fields. -/
theorem parse_tsv_sorted_counterexample :
    ¬ List.Pairwise (fun a b => crTupleLe a b = true)
      (_parse_countries_tsv [rowCatB, rowCatA] none 0) := by decide

/-- C5 (amended): for every export and target week, unconditionally,
within each emitted `CountryRanking` the entries are sorted by ascending
parsed numeric rank, and the rankings are emitted in ascending order of
their raw grouping key `(week, country_name, raw category label)` — the
output is exactly the retained keys, sorted by Python tuple comparison
`keyLt`, mapped through `buildRanking`.  The emitted sequence is in
addition sorted by the tuple of its own `(week, country_name, category)`
fields whenever every row's category label is one of the export schema's
`"Films"`/`"TV"`, whose slug map is order-preserving — the restriction
the counterexample forces. -/
theorem parse_tsv_sorted (rows : List Row) (target_week : Option String)
    (now : Nat) :
    (∀ cr ∈ _parse_countries_tsv rows target_week now,
      List.Pairwise (fun e1 e2 => e1.rank ≤ e2.rank) cr.rankings) ∧
    (_parse_countries_tsv rows target_week now =
      (pySorted keyLt (keptKeysOf rows target_week)).map
        (buildRanking now (survivorsOf rows target_week))) ∧
    List.Pairwise (fun a b => keyLt b a = false)
      (pySorted keyLt (keptKeysOf rows target_week)) ∧
    ((∀ r ∈ rows, r.category = "Films" ∨ r.category = "TV") →
      List.Pairwise (fun a b => crTupleLe a b = true)
        (_parse_countries_tsv rows target_week now)) := by
  refine ⟨?_, rfl, pySorted_pairwise keyLt keyLt_asymm keyLt_negtrans _, ?_⟩
  · intro cr hcr
    rcases List.mem_map.mp hcr with ⟨k, _, rfl⟩
    show List.Pairwise _ ((pySorted rankLt _).map buildEntry)
    rw [List.pairwise_map]
    have hp := pySorted_pairwise rankLt rankLt_asymm rankLt_negtrans
      ((survivorsOf rows target_week).filter (fun row => rowKey row == k))
    refine hp.imp ?_
    intro a b hab
    simp only [rankLt, decide_eq_false_iff_not] at hab
    simp only [buildEntry]
    omega
  · intro hcat
    apply sorted_build_pairwise
    · exact keptKeysOf_nodup rows target_week
    · intro k hk
      rcases keptKeysOf_cats rows target_week k hk with ⟨r, hr, heq⟩
      rw [heq]
      exact hcat r hr

/-- Witness for C5 at a concrete export: three rows, two groups; each
group's entries ascend by rank, and — the rows being schema-conforming —
the emitted sequence is ascending by its own tuple. -/
theorem parse_tsv_sorted_witness :
    (∀ cr ∈ _parse_countries_tsv [rowJB, rowJA, rowCE] none 0,
      List.Pairwise (fun e1 e2 => e1.rank ≤ e2.rank) cr.rankings) ∧
    List.Pairwise (fun a b => crTupleLe a b = true)
      (_parse_countries_tsv [rowJB, rowJA, rowCE] none 0) :=
  ⟨(parse_tsv_sorted [rowJB, rowJA, rowCE] none 0).1,
   (parse_tsv_sorted [rowJB, rowJA, rowCE] none 0).2.2.2 (by decide)⟩

/-! ## Claims about the validator -/

/-- The errors accumulated by `validate_ranking`'s per-entry loop are
empty exactly when they started empty and every entry passes the
per-entry hard-error checks. -/
theorem validate_fold_errors (context : String) :
    ∀ (entries : List RankingEntry) (errors0 warnings0 : List String)
      (seen0 : List Int),
      ((entries.foldl (validateEntry context)
          (errors0, warnings0, seen0)).1 = [] ↔
        (errors0 = [] ∧ entriesOk seen0 entries = true)) := by
  intro entries
  induction entries with
  | nil =>
    intro e0 w0 s0
    simp [entriesOk]
  | cons e es ih =>
    intro e0 w0 s0
    simp only [List.foldl_cons]
    by_cases h1 : (e.rank < MIN_RANK || e.rank > MAX_RANK) = true
    · by_cases h2 :
        (e.title == "" || (⟨pyStrip e.title.data⟩ : String) == "") = true
      · by_cases h3 : e.rank ∈ s0
        · simp [validateEntry, h1, h2, h3, ih, entriesOk, entryOk]
        · simp [validateEntry, h1, h2, h3, ih, entriesOk, entryOk]
      · by_cases h3 : e.rank ∈ s0
        · simp [validateEntry, h1, h2, h3, ih, entriesOk, entryOk]
        · simp [validateEntry, h1, h2, h3, ih, entriesOk, entryOk]
    · by_cases h2 :
        (e.title == "" || (⟨pyStrip e.title.data⟩ : String) == "") = true
      · by_cases h3 : e.rank ∈ s0
        · simp [validateEntry, h1, h2, h3, ih, entriesOk, entryOk]
        · simp [validateEntry, h1, h2, h3, ih, entriesOk, entryOk]
      · by_cases h3 : e.rank ∈ s0
        · simp [validateEntry, h1, h2, h3, ih, entriesOk, entryOk]
        · simp [validateEntry, h1, h2, h3, ih, entriesOk, entryOk]

/-- Predicate `entryOk` holds exactly when the entry's rank is in 1–10, the title
is non-blank after stripping, and the rank was not seen before. -/
theorem entryOk_iff (seen : List Int) (e : RankingEntry) :
    entryOk seen e = true ↔
      (MIN_RANK ≤ e.rank ∧ e.rank ≤ MAX_RANK ∧
        (⟨pyStrip e.title.data⟩ : String) ≠ "" ∧ e.rank ∉ seen) := by
  have htitle : ((e.title == "" ||
      (⟨pyStrip e.title.data⟩ : String) == "") = false) ↔
      (⟨pyStrip e.title.data⟩ : String) ≠ "" := by
    constructor
    · intro h
      simp only [Bool.or_eq_false_iff, beq_eq_false_iff_ne] at h
      exact h.2
    · intro h
      simp only [Bool.or_eq_false_iff, beq_eq_false_iff_ne]
      refine ⟨fun he => h ?_, h⟩
      rw [he]
      rfl
  simp only [entryOk, Bool.and_eq_true, Bool.not_eq_true', htitle]
  constructor
  · rintro ⟨⟨hrange, htit⟩, hseen⟩
    simp only [Bool.or_eq_false_iff, decide_eq_false_iff_not] at hrange
    simp only [List.elem_eq_mem, decide_eq_false_iff_not] at hseen
    exact ⟨by omega, by omega, htit, hseen⟩
  · rintro ⟨h1, h2, h3, h4⟩
    refine ⟨⟨?_, h3⟩, ?_⟩
    · simp only [Bool.or_eq_false_iff, decide_eq_false_iff_not]
      omega
    · simp only [List.elem_eq_mem, decide_eq_false_iff_not]
      exact h4

/-- Predicate `entriesOk` holds exactly when every entry is individually sound
(rank in 1–10, title non-blank after strip), the ranks are pairwise
distinct, and no rank collides with the initial seen set. -/
theorem entriesOk_iff :
    ∀ (entries : List RankingEntry) (seen : List Int),
      entriesOk seen entries = true ↔
        ((∀ e ∈ entries, MIN_RANK ≤ e.rank ∧ e.rank ≤ MAX_RANK ∧
            (⟨pyStrip e.title.data⟩ : String) ≠ "") ∧
          (entries.map RankingEntry.rank).Nodup ∧
          ∀ e ∈ entries, e.rank ∉ seen) := by
  intro entries
  induction entries with
  | nil =>
    intro seen
    simp [entriesOk]
  | cons e es ih =>
    intro seen
    simp only [entriesOk, Bool.and_eq_true, entryOk_iff, ih,
      List.forall_mem_cons, List.map_cons, List.nodup_cons, List.mem_map,
      List.mem_append, List.mem_singleton, not_or]
    constructor
    · rintro ⟨⟨h1, h2, h3, h4⟩, ⟨hall, hnd, hseen⟩⟩
      refine ⟨⟨⟨h1, h2, h3⟩, hall⟩, ⟨?_, hnd⟩, h4, ?_⟩
      · rintro ⟨e2, he2, heq⟩
        exact (hseen e2 he2).2 heq
      · intro e2 he2
        exact (hseen e2 he2).1
    · rintro ⟨⟨⟨h1, h2, h3⟩, hall⟩, ⟨hnomem, hnd⟩, h4, hseen⟩
      refine ⟨⟨h1, h2, h3, h4⟩, hall, hnd, ?_⟩
      intro e2 he2
      refine ⟨hseen e2 he2, fun heq => hnomem ⟨e2, he2, heq⟩⟩

/-- C8 counterexample: a `CountryRanking` with zero entries has none of
the claim's three hard-error conditions (no rank out of 1–10, no empty
title, no duplicate rank — there are no entries), its entry count merely
differs from 10, yet `validate_ranking` reports it invalid ("no ranking
entries"), not merely warned. -/
theorem validate_ranking_empty_counterexample :
    crEmpty.rankings = [] ∧ (validate_ranking crEmpty).valid = false :=
  ⟨rfl, by decide⟩

/-- C8 (amended): `validate_ranking` reports `valid` exactly when the
rankings tuple is non-empty (an empty tuple is itself a hard error — the
one correction to the claim), every rank is within 1–10, every title is
non-blank, and no rank repeats; entry count different from 10, category
outside films/tv, and week `"unknown"` do not affect `valid`. -/
theorem validate_ranking_valid_iff (ranking : CountryRanking) :
    (validate_ranking ranking).valid = true ↔
      (ranking.rankings ≠ [] ∧
       (∀ e ∈ ranking.rankings, MIN_RANK ≤ e.rank ∧ e.rank ≤ MAX_RANK ∧
          (⟨pyStrip e.title.data⟩ : String) ≠ "") ∧
       (ranking.rankings.map RankingEntry.rank).Nodup) := by
  by_cases he : ranking.rankings.isEmpty = true
  · have hnil : ranking.rankings = [] := List.isEmpty_iff.mp he
    simp [validate_ranking, he, hnil]
  · have hne : ranking.rankings ≠ [] := by
      simpa [List.isEmpty_iff] using he
    simp only [validate_ranking, he, Bool.false_eq_true, if_false]
    rw [beq_iff_eq, List.length_eq_zero, validate_fold_errors,
      entriesOk_iff]
    simp [hne]

end Netflix
